import Mathlib

/-!
A shallow embedding of the `mcp-rpc` library (`packages/mcp-rpc/src`):
the tool tree resolver `resolveTools`, the summary builder `createTools`,
the `RPC` registry, the handler factory and the registration callback
(`index.ts`), and the builder/tool aliasing semantics of `tool.ts`.

JavaScript features are rendered as follows: a `Record` iterated with
`Object.entries` becomes an ordered list of key/value entries; `undefined`
becomes `Option.none`; an `async` computation that may reject becomes
`Except`; mutation of a live object becomes explicit state passing, and a
closure over a mutable object becomes a function that receives the object's
current state at invocation time.
-/

set_option autoImplicit false

namespace McpRpc

/-- The summary record `{ description: tool.description }` built by
`createTools` in `index.ts`: it carries only the description, no schema and
no handler function. -/
structure ToolSummary where
  description : String
deriving DecidableEq, Repr

/-- A finalized `Tool` (`tool.ts`) as observed through its getters
`description` and `input`, together with its handler `fn`.  The handler
receives the context (`none` models the JS `undefined` delivered when no
context factory is configured) and the input, and returns a result or a
failure (`Except` models an async function that may reject). -/
structure Tool (Sch Ctx Inp Err Res : Type) where
  description : String
  input : Option Sch
  fn : Option Ctx → Inp → Except Err Res

mutual

/-- A value in a tool tree: either a `Tool` (the `tool instanceof Tool`
branch of `resolveTools`) or a nested mapping. -/
inductive ToolNode (τ : Type) : Type where
  | leaf : τ → ToolNode τ
  | branch : ToolEntries τ → ToolNode τ

/-- The ordered entries of a tool-tree mapping, in the order
`Object.entries` yields them. -/
inductive ToolEntries (τ : Type) : Type where
  | nil : ToolEntries τ
  | cons : String → ToolNode τ → ToolEntries τ → ToolEntries τ

end

mutual

/-- `resolveTools` from `index.ts`: walks the entries in order and computes
`fullName = parentName ? parentName + "." + name : name`.  The JS
conditional tests truthiness, so an *empty* parent string behaves exactly
like an absent one: the key is used bare. -/
def resolveTools {τ : Type} (tools : ToolEntries τ) (parentName : Option String) :
    List (String × τ) :=
  match tools with
  | .nil => []
  | .cons name tool rest =>
    let fullName :=
      match parentName with
      | some p => if p = "" then name else p ++ "." ++ name
      | none => name
    resolveNode tool fullName ++ resolveTools rest parentName

/-- One entry of the `resolveTools` loop: a `Tool` contributes the pair
`(fullName, tool)`, a nested mapping is resolved recursively with
`parentName = fullName`. -/
def resolveNode {τ : Type} (tool : ToolNode τ) (fullName : String) :
    List (String × τ) :=
  match tool with
  | .leaf t => [(fullName, t)]
  | .branch sub => resolveTools sub (some fullName)

end

mutual

/-- The resolver as the specification words it: each pair's name is the
`'.'`-joined path of keys from the root to the leaf, i.e. the parent name
is joined with `"."` *unconditionally* whenever a parent exists.  This is
the spec-side definition for the refinement claim about `resolveTools`;
the two differ only in how an empty parent name is treated. -/
def specResolve {τ : Type} (tools : ToolEntries τ) (parentName : Option String) :
    List (String × τ) :=
  match tools with
  | .nil => []
  | .cons name tool rest =>
    let fullName :=
      match parentName with
      | some p => p ++ "." ++ name
      | none => name
    specResolveNode tool fullName ++ specResolve rest parentName

/-- Node case of `specResolve`. -/
def specResolveNode {τ : Type} (tool : ToolNode τ) (fullName : String) :
    List (String × τ) :=
  match tool with
  | .leaf t => [(fullName, t)]
  | .branch sub => specResolve sub (some fullName)

end

/-- Root-level side condition under which the code's truthiness test can
never fire: no top-level entry binds a nested mapping to the empty-string
key.  (Below the root every accumulated name contains a `"."` and is
therefore nonempty, so no condition is needed there.) -/
def rootSafe {τ : Type} : ToolEntries τ → Bool
  | .nil => true
  | .cons name tool rest =>
    (match tool with
     | .leaf _ => true
     | .branch _ => name != "") && rootSafe rest

/-- The keys of an ordered key/value list. -/
def keysOf {α : Type} (l : List (String × α)) : List String := l.map Prod.fst

/-- First-match lookup in an ordered key/value list (reading a property of
a JS object whose keys are unique). -/
def lookupFirst {α : Type} : List (String × α) → String → Option α
  | [], _ => none
  | (k, v) :: rest, n => if k = n then some v else lookupFirst rest n

/-- Value of the *last* entry carrying a given key, `none` when the key is
absent. -/
def lookupLast {α : Type} : List (String × α) → String → Option α
  | [], _ => none
  | (k, v) :: rest, n =>
    match lookupLast rest n with
    | some v' => some v'
    | none => if k = n then some v else none

/-- One property assignment `obj[k] = v` on a JS object rendered as an
ordered key/value list: an existing key keeps its position and receives the
new value, a fresh key is appended at the end. -/
def insertOrUpdate {α : Type} : List (String × α) → String → α → List (String × α)
  | [], k, v => [(k, v)]
  | (k', v') :: rest, k, v =>
    if k' = k then (k', v) :: rest else (k', v') :: insertOrUpdate rest k v

/-- `Object.fromEntries`: assign the entries left to right into an empty
object, so a later entry with an already-present key overwrites the value
while the key keeps its first-occurrence position. -/
def fromEntries {α : Type} (l : List (String × α)) : List (String × α) :=
  l.foldl (fun acc kv => insertOrUpdate acc kv.1 kv.2) []

/-- `createTools` from `index.ts`:
`Object.fromEntries(tools.map(([name, tool]) => [name, { description: tool.description }]))`. -/
def createTools {Sch Ctx Inp Err Res : Type}
    (tools : List (String × Tool Sch Ctx Inp Err Res)) : List (String × ToolSummary) :=
  fromEntries (tools.map (fun nt => (nt.1, { description := nt.2.description })))

/-- The `RPC` registry class from `index.ts`: an optional context factory
`createContext` (absent on `initRPC` until `context` is called) and the
metadata record `_metadata` (defaulting to `{}`).  The factory may be
async and may reject, hence `Except`. -/
structure RPC (Sch Ctx Inp Err Res Auth Meta : Type) where
  createContext : Option (Auth → Except Err Ctx)
  _metadata : Meta

variable {Sch Ctx Inp Err Res Auth Meta : Type}

/-- `RPC.context(createContext)`: `this.createContext = createContext;
return this`.  In this state-passing rendering the returned registry *is*
the updated state, which is what chaining continues on. -/
def RPC.context (rpc : RPC Sch Ctx Inp Err Res Auth Meta)
    (createContext : Auth → Except Err Ctx) : RPC Sch Ctx Inp Err Res Auth Meta :=
  { rpc with createContext := some createContext }

/-- `RPC.metadata(metadata)`: `this._metadata = metadata; return this` —
replaces the metadata record wholesale. -/
def RPC.metadata (rpc : RPC Sch Ctx Inp Err Res Auth Meta) (metadata : Meta) :
    RPC Sch Ctx Inp Err Res Auth Meta :=
  { rpc with _metadata := metadata }

/-- The object returned by `createHandlerFactory(rpc)`'s `handler`
function: the flattened list `_tools` (cached), the `tools` summary, and
the snapshot of `rpc._metadata`.  The `$inferTools` field is type-level
only (`undefined as unknown as ...`) and carries no runtime content, so it
is omitted. -/
structure Handler (Sch Ctx Inp Err Res Meta : Type) where
  resolved : List (String × Tool Sch Ctx Inp Err Res)
  tools : List (String × ToolSummary)
  metadata : Meta

/-- `handler(tools)` from `createHandlerFactory`: resolves the tree once
(`const _tools = resolveTools(tools)`), builds the summary with
`createTools(_tools)`, and reads `rpc._metadata`. -/
def createHandler (rpc : RPC Sch Ctx Inp Err Res Auth Meta)
    (tools : ToolEntries (Tool Sch Ctx Inp Err Res)) :
    Handler Sch Ctx Inp Err Res Meta :=
  { resolved := resolveTools tools none,
    tools := createTools (resolveTools tools none),
    metadata := rpc._metadata }

/-- One registration made by
`server.tool(name, tool.description, tool.input, callback)`: the key,
description and schema passed to the server, plus the `tool` captured by
the installed callback closure.  (The closure also captures the live `rpc`
object; `invokeCallback` therefore receives the registry's state current
at invocation time.) -/
structure ServerEntry (Sch Ctx Inp Err Res : Type) where
  name : String
  description : String
  inputSchema : Option Sch
  tool : Tool Sch Ctx Inp Err Res

/-- The external server's tool table, grown by `server.tool`. -/
abbrev Server (Sch Ctx Inp Err Res : Type) := List (ServerEntry Sch Ctx Inp Err Res)

/-- `server.tool(...)` appends one entry to the server's tool table. -/
def serverTool (server : Server Sch Ctx Inp Err Res)
    (e : ServerEntry Sch Ctx Inp Err Res) : Server Sch Ctx Inp Err Res :=
  server ++ [e]

/-- The entry installed for one flattened `(name, tool)` pair. -/
def installEntry (nt : String × Tool Sch Ctx Inp Err Res) :
    ServerEntry Sch Ctx Inp Err Res :=
  { name := nt.1, description := nt.2.description, inputSchema := nt.2.input,
    tool := nt.2 }

/-- `Handler.register(server)`:
`for (const [name, tool] of _tools) { server.tool(name, tool.description, tool.input, callback) }`. -/
def Handler.register (h : Handler Sch Ctx Inp Err Res Meta)
    (server : Server Sch Ctx Inp Err Res) : Server Sch Ctx Inp Err Res :=
  h.resolved.foldl (fun s nt => serverTool s (installEntry nt)) server

/-- The installed callback:
`async (input, { authInfo }) => { const ctx = await rpc.createContext?.({ authInfo }); return tool.fn({ ctx, input }); }`.
The closure reads `rpc.createContext` off the live registry, so this
function takes the registry state current *at invocation time*; the
optional call yields `undefined` (`none`) when no factory is configured,
a rejection of the factory or of `tool.fn` propagates out unchanged, and
`tool.fn`'s result is returned to the server as is. -/
def invokeCallback (rpc : RPC Sch Ctx Inp Err Res Auth Meta)
    (tool : Tool Sch Ctx Inp Err Res) (input : Inp) (authInfo : Auth) :
    Except Err Res :=
  match rpc.createContext with
  | none => tool.fn none input
  | some createContext =>
    match createContext authInfo with
    | .error e => .error e
    | .ok ctx => tool.fn (some ctx) input

/-- The mutable `ToolBuilder` object state (`tool.ts`): the description set
at construction and the `inputSchema` field that `input` assigns. -/
structure ToolBuilder (Sch : Type) where
  description : String
  inputSchema : Option Sch

/-- The heap of builder objects, indexed by allocation order.  A `Tool`
constructed by `ToolBuilder.handler` stores a *reference* to its builder
(`private builder`), and its `description`/`input` getters read the
referenced builder's current fields — so observations take the store. -/
abbrev BuilderStore (Sch : Type) := List (ToolBuilder Sch)

/-- `new ToolBuilder(description)`: allocates a builder with no schema and
returns the store together with the new object's reference. -/
def newToolBuilder (σ : BuilderStore Sch) (description : String) :
    BuilderStore Sch × Nat :=
  (σ ++ [{ description := description, inputSchema := none }], σ.length)

/-- `ToolBuilder.input(schema)`: `this.inputSchema = schema; return this` —
assigns the referenced builder's `inputSchema` in place; the value returned
for chaining is the same reference `b`. -/
def builderInput : BuilderStore Sch → Nat → Sch → BuilderStore Sch
  | [], _, _ => []
  | bld :: rest, 0, s => { bld with inputSchema := some s } :: rest
  | bld :: rest, Nat.succ b, s => bld :: builderInput rest b s

/-- A `Tool` as constructed by `ToolBuilder.handler(fn)` (`tool.ts`): the
builder reference and the handler `fn`. -/
structure ToolRef (Sch Ctx Inp Err Res : Type) where
  builder : Nat
  fn : Option Ctx → Inp → Except Err Res

/-- `ToolBuilder.handler(fn)`: `return new Tool(this, fn)`. -/
def builderHandler (builder : Nat) (fn : Option Ctx → Inp → Except Err Res) :
    ToolRef Sch Ctx Inp Err Res :=
  { builder := builder, fn := fn }

/-- The `get description()` getter of `Tool`: reads the referenced
builder's *current* description from the store. -/
def ToolRef.descriptionNow (σ : BuilderStore Sch)
    (t : ToolRef Sch Ctx Inp Err Res) : Option String :=
  (σ[t.builder]?).map ToolBuilder.description

/-- The `get input()` getter of `Tool`: reads the referenced builder's
*current* `inputSchema` from the store. -/
def ToolRef.inputNow (σ : BuilderStore Sch)
    (t : ToolRef Sch Ctx Inp Err Res) : Option (Option Sch) :=
  (σ[t.builder]?).map ToolBuilder.inputSchema

/-- The store after `const b = new ToolBuilder("demo tool")`. -/
def c2Alloc : BuilderStore Nat × Nat := newToolBuilder [] "demo tool"

/-- The store after `b.input(1)`. -/
def c2Store1 : BuilderStore Nat := builderInput c2Alloc.1 c2Alloc.2 1

/-- `const t = b.handler(fn)`: the Tool is constructed while the builder's
schema is `1`. -/
def c2Tool : ToolRef Nat Unit Unit Unit Unit :=
  builderHandler c2Alloc.2 (fun _ _ => Except.ok ())

/-- The store after a further `b.input(2)` on the *same* builder, after the
Tool was constructed. -/
def c2Store2 : BuilderStore Nat := builderInput c2Store1 c2Tool.builder 2

/-- A tool whose handler echoes the context it receives (`0` when the
context is `undefined`). -/
def echoTool : Tool Unit Nat Unit Unit Nat :=
  { description := "echo the context", input := none,
    fn := fun c _ => Except.ok (c.getD 0) }

/-- The registry before the mutation: a context factory returning `1`. -/
def c3Reg1 : RPC Unit Nat Unit Unit Nat Unit Unit :=
  { createContext := some (fun _ => Except.ok 1), _metadata := () }

/-- The registry after `context` is called again, with a factory
returning `2`. -/
def c3Reg2 : RPC Unit Nat Unit Unit Nat Unit Unit :=
  RPC.context c3Reg1 (fun _ => Except.ok 2)

/-- A handler built (and registered in the C3 counterexample) while the
factory returning `1` was current. -/
def c3Handler : Handler Unit Nat Unit Unit Nat Unit :=
  createHandler c3Reg1 (ToolEntries.cons "echo" (.leaf echoTool) .nil)

/-- A one-tool tree used by concrete witnesses. -/
def c4Tree : ToolEntries (Tool Unit Nat Unit Unit Nat) :=
  ToolEntries.cons "echo" (.leaf echoTool) .nil

/-- A registry whose context factory returns `7`. -/
def c5Reg : RPC Unit Nat Unit Unit Nat Unit Unit :=
  { createContext := some (fun _ => Except.ok 7), _metadata := () }

/-- A registry with no context factory configured. -/
def c6Reg : RPC Unit Nat Unit Unit Nat Unit Unit :=
  { createContext := none, _metadata := () }

/-- A registry whose context factory always rejects. -/
def c7Reg : RPC Unit Nat Unit String Nat Unit Unit :=
  { createContext := some (fun _ => Except.error "ctx failure"), _metadata := () }

/-- A tool whose handler always rejects. -/
def c7Tool : Tool Unit Nat Unit String Nat :=
  { description := "always rejects", input := none,
    fn := fun _ _ => Except.error "handler failure" }

theorem append_dot_ne_empty (p name : String) : p ++ "." ++ name ≠ "" := by
  intro h
  have hlen : (p ++ "." ++ name).length = 0 := by rw [h]; rfl
  simp [String.length_append] at hlen
  exact absurd hlen.1.2 (by decide)

mutual

theorem resolveTools_eq_spec {τ : Type} (tools : ToolEntries τ) (p : String)
    (hp : p ≠ "") :
    resolveTools tools (some p) = specResolve tools (some p) :=
  match tools with
  | .nil => rfl
  | .cons name tool rest => by
    have h1 := resolveNode_eq_spec tool (p ++ "." ++ name) (append_dot_ne_empty p name)
    have h2 := resolveTools_eq_spec rest p hp
    simp only [resolveTools, specResolve, if_neg hp, h1, h2]

theorem resolveNode_eq_spec {τ : Type} (tool : ToolNode τ) (n : String)
    (hn : n ≠ "") :
    resolveNode tool n = specResolveNode tool n :=
  match tool with
  | .leaf _ => rfl
  | .branch sub => resolveTools_eq_spec sub n hn

end

theorem resolveTools_root_eq_spec {τ : Type} (tools : ToolEntries τ)
    (h : rootSafe tools = true) :
    resolveTools tools none = specResolve tools none :=
  match tools with
  | .nil => rfl
  | .cons name tool rest => by
    cases tool with
    | leaf t =>
      simp only [rootSafe, Bool.and_eq_true] at h
      have h2 := resolveTools_root_eq_spec rest h.2
      simp only [resolveTools, specResolve, resolveNode, specResolveNode, h2]
    | branch sub =>
      simp only [rootSafe, Bool.and_eq_true, bne_iff_ne, ne_eq] at h
      have h2 := resolveTools_root_eq_spec rest h.2
      have h1 := resolveTools_eq_spec sub name h.1
      simp only [resolveTools, specResolve, resolveNode, specResolveNode, h1, h2]

/-- C1: for every tool tree none of whose top-level entries binds a nested
mapping to the empty-string key, `resolveTools` returns the depth-first
pre-order list of pairs whose names are the `'.'`-joined paths of keys
(`specResolve`); in particular `{ a: ToolA, b: { c: ToolC, d: ToolD } }`
resolves to `[("a", ToolA), ("b.c", ToolC), ("b.d", ToolD)]` and
`{ x: { y: { z: ToolZ } } }` resolves to `[("x.y.z", ToolZ)]`.  (The side
condition is forced by the counterexample: the code treats an empty parent
name as absent.) -/
theorem c1_resolve_flattening {τ : Type} :
    (∀ tools : ToolEntries τ, rootSafe tools = true →
      resolveTools tools none = specResolve tools none)
    ∧ (∀ tA tC tD : τ,
        resolveTools
          (.cons "a" (.leaf tA)
            (.cons "b" (.branch (.cons "c" (.leaf tC) (.cons "d" (.leaf tD) .nil)))
              .nil)) none
          = [("a", tA), ("b.c", tC), ("b.d", tD)])
    ∧ (∀ tZ : τ,
        resolveTools
          (.cons "x" (.branch (.cons "y" (.branch (.cons "z" (.leaf tZ) .nil)) .nil))
            .nil) none
          = [("x.y.z", tZ)]) :=
  ⟨fun tools h => resolveTools_root_eq_spec tools h,
   fun _ _ _ => rfl,
   fun _ => rfl⟩

/-- Witness for C1: the general part applied to a concrete tree whose
root-level keys are nonempty. -/
theorem c1_resolve_flattening_witness :
    rootSafe
      (ToolEntries.cons "a" (.leaf 1)
        (.cons "b" (.branch (.cons "c" (.leaf 2) .nil)) .nil)) = true
    ∧ resolveTools
        (ToolEntries.cons "a" (.leaf 1)
          (.cons "b" (.branch (.cons "c" (.leaf 2) .nil)) .nil)) none
      = specResolve
          (ToolEntries.cons "a" (.leaf 1)
            (.cons "b" (.branch (.cons "c" (.leaf 2) .nil)) .nil)) none :=
  ⟨by decide, c1_resolve_flattening.1 _ (by decide)⟩

/-- C1 counterexample: for the tree `{ "": { c: Tool } }` the code yields
the bare name `"c"` (the empty parent name is falsy in JS), while the
`'.'`-joined path of keys from the root is `".c"` — so the claim as stated,
quantified over *every* tree, is false. -/
theorem c1_resolve_flattening_counterexample :
    resolveTools
      (ToolEntries.cons "" (.branch (.cons "c" (.leaf 0) .nil)) .nil)
      (none : Option String) = [("c", 0)]
    ∧ specResolve
        (ToolEntries.cons "" (.branch (.cons "c" (.leaf 0) .nil)) .nil)
        (none : Option String) = [(".c", 0)]
    ∧ ("c" : String) ≠ ".c" :=
  ⟨by decide, by decide, by decide⟩

theorem keysOf_nil {α : Type} : keysOf ([] : List (String × α)) = [] := rfl

theorem keysOf_cons {α : Type} (kv : String × α) (l : List (String × α)) :
    keysOf (kv :: l) = kv.1 :: keysOf l := rfl

theorem lookupFirst_insertOrUpdate {α : Type} (acc : List (String × α))
    (k : String) (v : α) (n : String) :
    lookupFirst (insertOrUpdate acc k v) n
      = if k = n then some v else lookupFirst acc n := by
  induction acc with
  | nil => simp [insertOrUpdate, lookupFirst]
  | cons kv rest ih =>
    obtain ⟨k', v'⟩ := kv
    by_cases h1 : k' = k
    · subst h1
      by_cases h2 : k' = n <;> simp [insertOrUpdate, lookupFirst, h2]
    · by_cases h2 : k' = n
      · subst h2
        simp [insertOrUpdate, lookupFirst, h1, Ne.symm h1]
      · simp [insertOrUpdate, lookupFirst, h1, h2, ih]

theorem lookupFirst_foldl_insert {α : Type} (l : List (String × α)) :
    ∀ (acc : List (String × α)) (n : String),
      lookupFirst (l.foldl (fun a kv => insertOrUpdate a kv.1 kv.2) acc) n
        = match lookupLast l n with
          | some v => some v
          | none => lookupFirst acc n := by
  induction l with
  | nil => intro acc n; simp [lookupLast]
  | cons kv rest ih =>
    intro acc n
    obtain ⟨k, v⟩ := kv
    simp only [List.foldl_cons]
    rw [ih]
    cases h : lookupLast rest n with
    | some v' => simp [lookupLast, h]
    | none =>
      rw [lookupFirst_insertOrUpdate]
      by_cases hk : k = n <;> simp [lookupLast, h, hk]

theorem lookupFirst_fromEntries {α : Type} (l : List (String × α)) (n : String) :
    lookupFirst (fromEntries l) n = lookupLast l n := by
  rw [fromEntries, lookupFirst_foldl_insert l [] n]
  cases h : lookupLast l n <;> simp [lookupFirst]

theorem keysOf_insertOrUpdate_mem {α : Type} (acc : List (String × α))
    (k : String) (v : α) (h : k ∈ keysOf acc) :
    keysOf (insertOrUpdate acc k v) = keysOf acc := by
  induction acc with
  | nil => simp [keysOf] at h
  | cons kv rest ih =>
    obtain ⟨k', v'⟩ := kv
    by_cases h1 : k' = k
    · simp [insertOrUpdate, h1, keysOf]
    · have h2 : k ∈ keysOf rest := by
        rcases List.mem_cons.mp h with h3 | h3
        · exact absurd h3.symm h1
        · exact h3
      simp only [insertOrUpdate, if_neg h1, keysOf_cons, ih h2]

theorem keysOf_insertOrUpdate_not_mem {α : Type} (acc : List (String × α))
    (k : String) (v : α) (h : k ∉ keysOf acc) :
    keysOf (insertOrUpdate acc k v) = keysOf acc ++ [k] := by
  induction acc with
  | nil => simp [insertOrUpdate, keysOf]
  | cons kv rest ih =>
    obtain ⟨k', v'⟩ := kv
    simp only [keysOf_cons, List.mem_cons, not_or] at h
    have h1 : k' ≠ k := fun he => h.1 he.symm
    have h2 : k ∉ keysOf rest := h.2
    simp only [insertOrUpdate, if_neg h1, keysOf_cons, ih h2, List.cons_append]

theorem nodup_keysOf_insertOrUpdate {α : Type} (acc : List (String × α))
    (k : String) (v : α) (h : (keysOf acc).Nodup) :
    (keysOf (insertOrUpdate acc k v)).Nodup := by
  by_cases hk : k ∈ keysOf acc
  · rw [keysOf_insertOrUpdate_mem _ _ _ hk]; exact h
  · rw [keysOf_insertOrUpdate_not_mem _ _ _ hk]
    simp [List.nodup_append, h, hk]

theorem nodup_keysOf_foldl_insert {α : Type} (l : List (String × α)) :
    ∀ acc : List (String × α), (keysOf acc).Nodup →
      (keysOf (l.foldl (fun a kv => insertOrUpdate a kv.1 kv.2) acc)).Nodup := by
  induction l with
  | nil => intro acc h; exact h
  | cons kv rest ih =>
    intro acc h
    exact ih _ (nodup_keysOf_insertOrUpdate _ _ _ h)

theorem nodup_keysOf_fromEntries {α : Type} (l : List (String × α)) :
    (keysOf (fromEntries l)).Nodup :=
  nodup_keysOf_foldl_insert l [] (by simp [keysOf])

theorem lookupLast_eq_some_mem {α : Type} (l : List (String × α)) (n : String)
    (v : α) (h : lookupLast l n = some v) : (n, v) ∈ l := by
  induction l with
  | nil => simp [lookupLast] at h
  | cons kv rest ih =>
    obtain ⟨k, w⟩ := kv
    simp only [lookupLast] at h
    cases h2 : lookupLast rest n with
    | some v' =>
      rw [h2] at h
      injection h with hv
      subst hv
      exact List.mem_cons_of_mem _ (ih h2)
    | none =>
      rw [h2] at h
      by_cases hk : k = n
      · rw [if_pos hk] at h
        injection h with hv
        subst hv
        subst hk
        exact List.mem_cons_self _ _
      · rw [if_neg hk] at h
        exact Option.noConfusion h

theorem lookupLast_eq_none_iff {α : Type} (l : List (String × α)) (n : String) :
    lookupLast l n = none ↔ n ∉ keysOf l := by
  induction l with
  | nil => simp [lookupLast, keysOf]
  | cons kv rest ih =>
    obtain ⟨k, w⟩ := kv
    simp only [lookupLast, keysOf_cons, List.mem_cons]
    cases h2 : lookupLast rest n with
    | some v' =>
      have hmem : n ∈ keysOf rest := by
        by_contra hc
        rw [← ih] at hc
        rw [h2] at hc
        exact Option.noConfusion hc
      simp [hmem]
    | none =>
      have hmem : n ∉ keysOf rest := ih.mp h2
      by_cases hk : k = n
      · simp [hk]
      · simp [hk, hmem, Ne.symm hk]

theorem lookupFirst_of_mem_nodup {α : Type} (l : List (String × α)) (n : String)
    (v : α) (hnd : (keysOf l).Nodup) (h : (n, v) ∈ l) : lookupFirst l n = some v := by
  induction l with
  | nil => simp at h
  | cons kv rest ih =>
    obtain ⟨k, w⟩ := kv
    rcases List.mem_cons.mp h with h1 | h1
    · injection h1 with ha hb
      subst ha
      subst hb
      simp [lookupFirst]
    · rw [keysOf_cons] at hnd
      have hnd' := List.nodup_cons.mp hnd
      have hk : k ≠ n := by
        intro he
        subst he
        exact hnd'.1 (by simpa [keysOf] using List.mem_map_of_mem Prod.fst h1)
      simp only [lookupFirst, if_neg hk]
      exact ih hnd'.2 h1

theorem mem_fromEntries_lookupLast {α : Type} (l : List (String × α))
    (n : String) (v : α) (h : (n, v) ∈ fromEntries l) : lookupLast l n = some v := by
  have h1 : lookupFirst (fromEntries l) n = some v :=
    lookupFirst_of_mem_nodup _ _ _ (nodup_keysOf_fromEntries l) h
  rw [lookupFirst_fromEntries] at h1
  exact h1

theorem lookupLast_isSome_iff_mem {α : Type} (l : List (String × α)) (n : String) :
    (∃ v, lookupLast l n = some v) ↔ n ∈ keysOf l := by
  constructor
  · rintro ⟨v, hv⟩
    by_contra hm
    rw [(lookupLast_eq_none_iff l n).mpr hm] at hv
    exact Option.noConfusion hv
  · intro hm
    cases hL : lookupLast l n with
    | none => exact absurd ((lookupLast_eq_none_iff l n).mp hL) (not_not_intro hm)
    | some v => exact ⟨v, rfl⟩

theorem keysOf_map_summary (l : List (String × Tool Sch Ctx Inp Err Res)) :
    keysOf (l.map (fun nt => (nt.1, ({ description := nt.2.description } : ToolSummary))))
      = keysOf l := by
  induction l with
  | nil => rfl
  | cons nt rest ih =>
    simp only [List.map_cons, keysOf_cons] at ih ⊢
    rw [ih]

theorem lookupLast_map_summary (l : List (String × Tool Sch Ctx Inp Err Res)) (n : String) :
    lookupLast (l.map (fun nt => (nt.1, ({ description := nt.2.description } : ToolSummary)))) n
      = (lookupLast l n).map (fun t => ({ description := t.description } : ToolSummary)) := by
  induction l with
  | nil => rfl
  | cons nt rest ih =>
    obtain ⟨k, v⟩ := nt
    simp only [List.map_cons, lookupLast, ih]
    cases h : lookupLast rest n with
    | some w => simp
    | none => by_cases hk : k = n <;> simp [hk]

theorem foldl_serverTool_eq_append (l : List (String × Tool Sch Ctx Inp Err Res)) :
    ∀ server : Server Sch Ctx Inp Err Res,
      l.foldl (fun s nt => serverTool s (installEntry nt)) server
        = server ++ l.map installEntry := by
  induction l with
  | nil => intro s; simp
  | cons nt rest ih =>
    intro s
    rw [List.foldl_cons, ih]
    simp [serverTool]

theorem register_eq_append (h : Handler Sch Ctx Inp Err Res Meta)
    (server : Server Sch Ctx Inp Err Res) :
    h.register server = server ++ h.resolved.map installEntry :=
  foldl_serverTool_eq_append h.resolved server

theorem getElem?_builderInput (σ : BuilderStore Sch) (b : Nat) (s : Sch) (i : Nat) :
    (builderInput σ b s)[i]?
      = if i = b
        then (σ[i]?).map (fun bld => { bld with inputSchema := some s })
        else σ[i]? := by
  induction σ generalizing b i with
  | nil => simp [builderInput]
  | cons bld rest ih =>
    cases b with
    | zero =>
      cases i with
      | zero => simp [builderInput]
      | succ i => simp [builderInput]
    | succ b =>
      cases i with
      | zero => simp [builderInput]
      | succ i => simpa [builderInput] using ih b i

/-- C2 counterexample: `Tool`'s `input` getter reads the live builder it
references, so calling the originating builder's `input` method *after*
the Tool was constructed changes the schema observed on the
already-constructed Tool from `1` to `2` — the Tool is not immutable. -/
theorem c2_tool_immutable_counterexample :
    ToolRef.inputNow c2Store1 c2Tool = some (some 1)
    ∧ ToolRef.inputNow c2Store2 c2Tool = some (some 2)
    ∧ (some (some 1) : Option (Option Nat)) ≠ some (some 2) :=
  ⟨rfl, rfl, by decide⟩

/-- C2 amended: once a Tool is constructed, its observed *description*
never changes, and its observed input schema is changed by no operation
except a further `input` call on the *originating* builder: `input` on any
other builder and fresh builder allocations leave both observations of the
Tool unchanged. -/
theorem c2_tool_immutable_amended :
    (∀ (σ : BuilderStore Sch) (b : Nat) (s : Sch) (t : ToolRef Sch Ctx Inp Err Res),
       ToolRef.descriptionNow (builderInput σ b s) t = ToolRef.descriptionNow σ t)
    ∧ (∀ (σ : BuilderStore Sch) (b : Nat) (s : Sch) (t : ToolRef Sch Ctx Inp Err Res),
         b ≠ t.builder →
         ToolRef.inputNow (builderInput σ b s) t = ToolRef.inputNow σ t)
    ∧ (∀ (σ : BuilderStore Sch) (d : String) (t : ToolRef Sch Ctx Inp Err Res),
         t.builder < σ.length →
         ToolRef.descriptionNow (newToolBuilder σ d).1 t = ToolRef.descriptionNow σ t
         ∧ ToolRef.inputNow (newToolBuilder σ d).1 t = ToolRef.inputNow σ t) := by
  refine ⟨?_, ?_, ?_⟩
  · intro σ b s t
    simp only [ToolRef.descriptionNow, getElem?_builderInput]
    by_cases h : t.builder = b
    · rw [if_pos h]
      cases σ[t.builder]? <;> simp
    · rw [if_neg h]
  · intro σ b s t hb
    simp only [ToolRef.inputNow, getElem?_builderInput]
    rw [if_neg (fun he => hb he.symm)]
  · intro σ d t ht
    constructor <;>
      simp [ToolRef.descriptionNow, ToolRef.inputNow, newToolBuilder,
        List.getElem?_append, ht]

/-- Witness for the amended C2 theorem: an `input` call on a *different*
builder leaves a Tool's observed schema unchanged. -/
theorem c2_tool_immutable_amended_witness :
    (1 : Nat) ≠ (⟨0, fun _ _ => Except.ok ()⟩ : ToolRef Nat Unit Unit Unit Unit).builder
    ∧ ToolRef.inputNow
        (builderInput ([⟨"d", some 5⟩, ⟨"e", none⟩] : BuilderStore Nat) 1 9)
        (⟨0, fun _ _ => Except.ok ()⟩ : ToolRef Nat Unit Unit Unit Unit)
      = ToolRef.inputNow ([⟨"d", some 5⟩, ⟨"e", none⟩] : BuilderStore Nat)
          (⟨0, fun _ _ => Except.ok ()⟩ : ToolRef Nat Unit Unit Unit Unit) :=
  ⟨by decide, c2_tool_immutable_amended.2.1 _ 1 9 _ (by decide)⟩

/-- C3 counterexample: the callback registered while the factory returning
`1` was current captures the live registry, not that factory; after the
registry is mutated to a factory returning `2`, invoking the
already-registered callback yields `2` — not the `1` the claim predicts
for callbacks registered before the mutation. -/
theorem c3_registration_snapshot_counterexample :
    Handler.register c3Handler []
      = [{ name := "echo", description := "echo the context",
           inputSchema := none, tool := echoTool }]
    ∧ invokeCallback c3Reg2 echoTool () () = Except.ok 2
    ∧ invokeCallback c3Reg1 echoTool () () = Except.ok 1
    ∧ (Except.ok 2 : Except Unit Nat) ≠ Except.ok 1 :=
  ⟨rfl, rfl, rfl, by simp⟩

/-- C3 amended: setting a new context factory after `create()` affects the
handlers created afterwards *and* the callbacks already registered against
a server: each registered callback reads the registry's context factory
current at invocation time, so after `RPC.context rpc f` every invocation
— including of callbacks installed earlier — builds its context with `f`. -/
theorem c3_context_mutation_visible
    (rpc : RPC Sch Ctx Inp Err Res Auth Meta) (f : Auth → Except Err Ctx)
    (t : Tool Sch Ctx Inp Err Res) (input : Inp) (authInfo : Auth) (c : Ctx)
    (h : f authInfo = Except.ok c) :
    invokeCallback (RPC.context rpc f) t input authInfo = t.fn (some c) input := by
  simp [invokeCallback, RPC.context, h]

/-- Witness for the amended C3 theorem at a concrete registry and tool. -/
theorem c3_context_mutation_visible_witness :
    (fun _ : Unit => (Except.ok 2 : Except Unit Nat)) () = Except.ok 2
    ∧ invokeCallback (RPC.context c3Reg1 (fun _ => Except.ok 2)) echoTool () ()
        = echoTool.fn (some 2) () :=
  ⟨rfl, c3_context_mutation_visible c3Reg1 (fun _ => Except.ok 2) echoTool () () 2 rfl⟩

/-- C4: for every Handler created from a tool tree, the `tools` summary is
exactly `createTools` of the flattening; a dotted name is a key of the
summary iff it is one of the names produced by flattening (no other keys),
and every summary entry holds exactly the description of a Tool flattened
under that name — the summary record has no schema and no handler field. -/
theorem c4_tools_summary (rpc : RPC Sch Ctx Inp Err Res Auth Meta)
    (tree : ToolEntries (Tool Sch Ctx Inp Err Res)) :
    (createHandler rpc tree).tools = createTools (resolveTools tree none)
    ∧ (∀ n : String,
        (∃ s, lookupFirst (createHandler rpc tree).tools n = some s)
          ↔ n ∈ keysOf (resolveTools tree none))
    ∧ (∀ (n : String) (s : ToolSummary),
        (n, s) ∈ (createHandler rpc tree).tools →
          ∃ t, (n, t) ∈ resolveTools tree none
            ∧ s = { description := t.description }) := by
  refine ⟨rfl, ?_, ?_⟩
  · intro n
    show (∃ s, lookupFirst (createTools (resolveTools tree none)) n = some s) ↔ _
    simp only [createTools, lookupFirst_fromEntries]
    rw [lookupLast_isSome_iff_mem, keysOf_map_summary]
  · intro n s hmem
    have h1 := mem_fromEntries_lookupLast _ _ _ hmem
    have h2 := lookupLast_eq_some_mem _ _ _ h1
    obtain ⟨nt, hnt, heq⟩ := List.mem_map.mp h2
    cases heq
    exact ⟨nt.2, hnt, rfl⟩

/-- Witness for C4 at a concrete handler: the single summary entry indeed
comes from the flattened pair with that name. -/
theorem c4_tools_summary_witness :
    (("echo", ({ description := "echo the context" } : ToolSummary))
        ∈ (createHandler c6Reg c4Tree).tools)
    ∧ ∃ t, ("echo", t) ∈ resolveTools c4Tree none
        ∧ ({ description := "echo the context" } : ToolSummary)
            = { description := t.description } :=
  ⟨by decide, (c4_tools_summary c6Reg c4Tree).2.2 "echo" _ (by decide)⟩

/-- C5: `register(server)` installs, for every flattened `(name, Tool)`
pair in resolution order, exactly one callback keyed by that name, the
Tool's description and its input schema; when the server invokes such a
callback, it first evaluates the registry's current context factory on the
authentication info, then calls the Tool's handler with the resulting
context and the input, and hands the handler's result back unchanged. -/
theorem c5_register_and_invoke :
    (∀ (h : Handler Sch Ctx Inp Err Res Meta) (server : Server Sch Ctx Inp Err Res),
       h.register server = server ++ h.resolved.map installEntry)
    ∧ (∀ (rpc : RPC Sch Ctx Inp Err Res Auth Meta) (f : Auth → Except Err Ctx)
         (t : Tool Sch Ctx Inp Err Res) (input : Inp) (authInfo : Auth) (c : Ctx),
         rpc.createContext = some f → f authInfo = Except.ok c →
         invokeCallback rpc t input authInfo = t.fn (some c) input) := by
  refine ⟨register_eq_append, ?_⟩
  intro rpc f t input authInfo c h1 h2
  simp [invokeCallback, h1, h2]

/-- Witness for C5: a callback invocation under a configured factory calls
the handler with the produced context. -/
theorem c5_register_and_invoke_witness :
    c5Reg.createContext = some (fun _ => (Except.ok 7 : Except Unit Nat))
    ∧ (fun _ : Unit => (Except.ok 7 : Except Unit Nat)) () = Except.ok 7
    ∧ invokeCallback c5Reg echoTool () () = echoTool.fn (some 7) () :=
  ⟨rfl, rfl, c5_register_and_invoke.2 c5Reg _ echoTool () () 7 rfl rfl⟩

/-- C6: with no context factory configured at invocation time, the callback
delivers `undefined` (`none`) as the context and still invokes the Tool's
handler on the given input — the handler is not skipped and this layer
raises no failure for the missing factory. -/
theorem c6_missing_context_factory
    (rpc : RPC Sch Ctx Inp Err Res Auth Meta) (t : Tool Sch Ctx Inp Err Res)
    (input : Inp) (authInfo : Auth) (h : rpc.createContext = none) :
    invokeCallback rpc t input authInfo = t.fn none input := by
  simp [invokeCallback, h]

/-- Witness for C6: the handler runs with an `undefined` context and
produces its answer (`0`, the echo of a missing context). -/
theorem c6_missing_context_factory_witness :
    c6Reg.createContext = none
    ∧ invokeCallback c6Reg echoTool () () = echoTool.fn none ()
    ∧ invokeCallback c6Reg echoTool () () = Except.ok 0 :=
  ⟨rfl, c6_missing_context_factory c6Reg echoTool () () rfl, rfl⟩

/-- C7: failures pass through unchanged: a context-factory rejection
surfaces as the callback's failure with the very same error, and a handler
failure does likewise — whether a factory is configured or not; this layer
performs no error translation of its own. -/
theorem c7_failure_passthrough :
    (∀ (rpc : RPC Sch Ctx Inp Err Res Auth Meta) (f : Auth → Except Err Ctx)
       (t : Tool Sch Ctx Inp Err Res) (input : Inp) (authInfo : Auth) (e : Err),
       rpc.createContext = some f → f authInfo = Except.error e →
       invokeCallback rpc t input authInfo = Except.error e)
    ∧ (∀ (rpc : RPC Sch Ctx Inp Err Res Auth Meta) (f : Auth → Except Err Ctx)
         (t : Tool Sch Ctx Inp Err Res) (input : Inp) (authInfo : Auth)
         (c : Ctx) (e : Err),
         rpc.createContext = some f → f authInfo = Except.ok c →
         t.fn (some c) input = Except.error e →
         invokeCallback rpc t input authInfo = Except.error e)
    ∧ (∀ (rpc : RPC Sch Ctx Inp Err Res Auth Meta)
         (t : Tool Sch Ctx Inp Err Res) (input : Inp) (authInfo : Auth) (e : Err),
         rpc.createContext = none → t.fn none input = Except.error e →
         invokeCallback rpc t input authInfo = Except.error e) := by
  refine ⟨?_, ?_, ?_⟩
  · intro rpc f t input authInfo e h1 h2
    simp [invokeCallback, h1, h2]
  · intro rpc f t input authInfo c e h1 h2 h3
    simp [invokeCallback, h1, h2, h3]
  · intro rpc t input authInfo e h1 h2
    simp [invokeCallback, h1, h2]

/-- Witness for C7: the factory's rejection comes out of the callback as
the very same error value. -/
theorem c7_failure_passthrough_witness :
    c7Reg.createContext = some (fun _ => (Except.error "ctx failure" : Except String Nat))
    ∧ (fun _ : Unit => (Except.error "ctx failure" : Except String Nat)) ()
        = Except.error "ctx failure"
    ∧ invokeCallback c7Reg c7Tool () () = Except.error "ctx failure" :=
  ⟨rfl, rfl, c7_failure_passthrough.1 c7Reg _ c7Tool () () "ctx failure" rfl rfl⟩

/-- C8: `context(fn)` makes `fn` the registry's context factory, replacing
any previously active one (so at most one factory is active at a time) and
leaving the metadata untouched; `metadata(m)` replaces the metadata record
wholesale — whatever was set before — and leaves the factory untouched.
In this state-passing rendering each call returns exactly the updated
registry, the value chaining continues on. -/
theorem c8_context_and_metadata :
    (∀ (rpc : RPC Sch Ctx Inp Err Res Auth Meta) (f : Auth → Except Err Ctx),
       (RPC.context rpc f).createContext = some f
       ∧ (RPC.context rpc f)._metadata = rpc._metadata)
    ∧ (∀ (rpc : RPC Sch Ctx Inp Err Res Auth Meta) (f g : Auth → Except Err Ctx),
         RPC.context (RPC.context rpc g) f = RPC.context rpc f)
    ∧ (∀ (rpc : RPC Sch Ctx Inp Err Res Auth Meta) (m : Meta),
         (RPC.metadata rpc m)._metadata = m
         ∧ (RPC.metadata rpc m).createContext = rpc.createContext)
    ∧ (∀ (rpc : RPC Sch Ctx Inp Err Res Auth Meta) (m₁ m₂ : Meta),
         RPC.metadata (RPC.metadata rpc m₁) m₂ = RPC.metadata rpc m₂) :=
  ⟨fun _ _ => ⟨rfl, rfl⟩, fun _ _ _ => rfl, fun _ _ => ⟨rfl, rfl⟩, fun _ _ _ => rfl⟩

/-- C9: the tree is flattened once, when the Handler is created — the
Handler caches `resolved = resolveTools tree none` and `register` only
replays that cached list — and registering the same Handler against two
servers appends that same entry list to each: each server's table is an
independent value, so what one server's table holds has no effect on the
entries appended to the other. -/
theorem c9_register_multiple (rpc : RPC Sch Ctx Inp Err Res Auth Meta)
    (tree : ToolEntries (Tool Sch Ctx Inp Err Res))
    (s₁ s₂ : Server Sch Ctx Inp Err Res) :
    (createHandler rpc tree).resolved = resolveTools tree none
    ∧ Handler.register (createHandler rpc tree) s₁
        = s₁ ++ (resolveTools tree none).map installEntry
    ∧ Handler.register (createHandler rpc tree) s₂
        = s₂ ++ (resolveTools tree none).map installEntry :=
  ⟨rfl, register_eq_append _ _, register_eq_append _ _⟩

/-- C10: when flattening yields several pairs with the same dotted name,
`register` still installs one callback per pair — all of them, in
resolution order — while the `tools` summary lists each dotted name only
once (its key list is duplicate-free) and maps a name to the description
of the *last* flattened pair carrying it (`Object.fromEntries` lets later
entries overwrite earlier ones). -/
theorem c10_duplicate_names :
    (∀ (h : Handler Sch Ctx Inp Err Res Meta) (server : Server Sch Ctx Inp Err Res),
       h.register server = server ++ h.resolved.map installEntry)
    ∧ (∀ l : List (String × Tool Sch Ctx Inp Err Res),
         (keysOf (createTools l)).Nodup)
    ∧ (∀ (l : List (String × Tool Sch Ctx Inp Err Res)) (n : String),
         lookupFirst (createTools l) n
           = (lookupLast l n).map (fun t => ({ description := t.description } : ToolSummary))) := by
  refine ⟨register_eq_append, ?_, ?_⟩
  · intro l
    exact nodup_keysOf_fromEntries _
  · intro l n
    rw [createTools, lookupFirst_fromEntries, lookupLast_map_summary]

end McpRpc
